import Mathlib

/-!
Verification of the graph-node wasm mapping runtime core
(`runtime/wasm/src/module/mod.rs` and `runtime/wasm/src/mapping.rs`).

The Rust code is shallowly embedded: `i32` values are `Int` with explicit
range handling where the code converts or can overflow, guest linear memory
is a `List Nat` of bytes, panicking operations return `Option`, and fallible
host functions return `Except`.
-/

namespace GraphNode

/-! ## Machine integer helpers -/

/-- `i32::MAX` as an integer. -/
def i32Max : Int := 2 ^ 31 - 1

/-- `i32::try_from(n)` for a `usize` value `n`: succeeds exactly when the
value fits in an `i32`. Used by `raw_new` on `bytes.len()`. -/
def i32TryFrom (n : Nat) : Option Int :=
  if (n : Int) ≤ i32Max then some (n : Int) else none

/-- `x as usize` for an `i32` value `x`: sign-extension to 64 bits
reinterpreted as an unsigned machine word. -/
def i32AsUsize (x : Int) : Nat := (x % 2 ^ 64).toNat

/-! ## Semver versions (`semver::Version` restricted to plain triples,
as constructed by `Version::new` in the code) -/

/-- A semver triple; comparison is lexicographic on (major, minor, patch). -/
structure SemVer where
  major : Nat
  minor : Nat
  patch : Nat
deriving DecidableEq, Repr

/-- Lexicographic `<=` on semver triples (the `semver` crate order for
versions without pre-release tags). -/
def SemVer.le (a b : SemVer) : Bool :=
  if a.major ≠ b.major then a.major < b.major
  else if a.minor ≠ b.minor then a.minor < b.minor
  else a.patch ≤ b.patch

/-- `a >= b` on semver triples, as used in the `api_version` comparisons. -/
def SemVer.ge (a b : SemVer) : Bool := SemVer.le b a

/-! ## Versioned payload selection

`handle_ethereum_log`, `handle_ethereum_call` and the `ethereum.call`
host function each branch on `host_exports.api_version` to pick a layout. -/

/-- The two event payload encodings `handle_ethereum_log` can produce. -/
inductive EventEncoding
  /-- `AscEthereumEvent<AscEthereumTransaction_0_0_2>` -/
  | transaction_0_0_2
  /-- `AscEthereumEvent<AscEthereumTransaction>` (legacy) -/
  | transactionLegacy
deriving DecidableEq, Repr

/-- The event encoding chosen by `handle_ethereum_log`:
`if api_version >= Version::new(0, 0, 2)` then the `_0_0_2` transaction
encoding else the legacy one. -/
def handleEthereumLogEncoding (apiVersion : SemVer) : EventEncoding :=
  if SemVer.ge apiVersion ⟨0, 0, 2⟩ then .transaction_0_0_2 else .transactionLegacy

/-- The two call payload encodings `handle_ethereum_call` can produce. -/
inductive CallEncoding
  /-- `AscEthereumCall_0_0_3` -/
  | call_0_0_3
  /-- `AscEthereumCall` (legacy) -/
  | callLegacy
deriving DecidableEq, Repr

/-- The call encoding chosen by `handle_ethereum_call`:
`if api_version >= Version::new(0, 0, 3)` then `AscEthereumCall_0_0_3`
else the legacy `AscEthereumCall`. -/
def handleEthereumCallEncoding (apiVersion : SemVer) : CallEncoding :=
  if SemVer.ge apiVersion ⟨0, 0, 3⟩ then .call_0_0_3 else .callLegacy

/-- The two decodings the `ethereum.call` import can apply to its argument. -/
inductive ContractCallDecoding
  /-- `AscUnresolvedContractCall_0_0_4` (includes the function signature) -/
  | unresolvedCall_0_0_4
  /-- `AscUnresolvedContractCall` (legacy, no signature) -/
  | unresolvedCallLegacy
deriving DecidableEq, Repr

/-- The argument decoding chosen by the `ethereum.call` import closure:
`if api_version >= Version::new(0, 0, 4)` then the `_0_0_4` layout with the
function signature else the legacy layout. -/
def ethereumCallArgDecoding (apiVersion : SemVer) : ContractCallDecoding :=
  if SemVer.ge apiVersion ⟨0, 0, 4⟩ then .unresolvedCall_0_0_4 else .unresolvedCallLegacy

/-! ## Arena heap over linear memory (`impl AscHeap for WasmiModule`)

The instance state relevant to the heap is `arena_start_ptr : i32`,
`arena_free_size : i32` and the guest linear memory. The guest allocator
`memory.allocate` is a parameter `allocate : Int → Int` (the code unwraps
its result). Host panics are `none`. -/

/-- `MIN_ARENA_SIZE` from `raw_new`. -/
def MIN_ARENA_SIZE : Int := 10000

/-- The arena-related state of a `WasmiModule` instance. -/
structure Arena where
  /-- First free byte in the current arena (`arena_start_ptr : i32`). -/
  arenaStartPtr : Int
  /-- Number of free bytes starting from `arenaStartPtr`
  (`arena_free_size : i32`). -/
  arenaFreeSize : Int
  /-- The guest linear memory, one `Nat` per byte. -/
  memory : List Nat
deriving DecidableEq, Repr

/-- The arena state set up by `from_valid_module_with_ctx`: both fields are
zero; `arena_start_ptr` will be set on the first call to `raw_new`. -/
def initialArena (mem : List Nat) : Arena :=
  { arenaStartPtr := 0, arenaFreeSize := 0, memory := mem }

/-- The refill step of `raw_new`: if `size > arena_free_size`, allocate a
new arena of `size.max(MIN_ARENA_SIZE)` via the guest allocator and make it
current. The boolean records whether a fresh slab was requested. -/
def arenaRefill (allocate : Int → Int) (a : Arena) (size : Int) : Arena × Bool :=
  if size > a.arenaFreeSize then
    let arenaSize := max size MIN_ARENA_SIZE
    ({ a with arenaStartPtr := allocate arenaSize, arenaFreeSize := arenaSize }, true)
  else
    (a, false)

/-- Rust `mem[lo..hi].copy_from_slice(src)`: panics (`none`) when the range
is invalid (`lo > hi` or `hi > mem.len()`) or when the range length differs
from `src.len()`; otherwise overwrites `mem[lo..hi]` with `src`. -/
def copyFromSlice (mem : List Nat) (lo hi : Nat) (src : List Nat) : Option (List Nat) :=
  if lo ≤ hi ∧ hi ≤ mem.length ∧ hi - lo = src.length then
    some (mem.take lo ++ src ++ mem.drop hi)
  else
    none

/-- `WasmiModule::raw_new(bytes)` exactly as written in the source:
convert the length to `i32` (`unwrap` panic on failure), refill the arena
when the bytes do not fit, then execute
`data[ptr..bytes.len()].copy_from_slice(bytes)` — the source's slice range
is `ptr..bytes.len()`, not `ptr..ptr + bytes.len()` — and finally advance
`arena_start_ptr` and decrement `arena_free_size` by the length.
Returns the pointer and the new state, or `none` for a host panic. -/
def rawNew (allocate : Int → Int) (a : Arena) (bytes : List Nat) :
    Option (Arena × Nat) :=
  match i32TryFrom bytes.length with
  | none => none
  | some size =>
    let a1 := (arenaRefill allocate a size).1
    let ptr := i32AsUsize a1.arenaStartPtr
    match copyFromSlice a1.memory ptr bytes.length bytes with
    | none => none
    | some mem1 =>
      some ({ arenaStartPtr := a1.arenaStartPtr + size,
              arenaFreeSize := a1.arenaFreeSize - size,
              memory := mem1 }, ptr)

/-- `WasmiModule::get(offset, size)`: `data[offset..(offset + size)].to_vec()`;
out-of-range access is a panic (`none`). -/
def Arena.get (a : Arena) (offset size : Nat) : Option (List Nat) :=
  if offset + size ≤ a.memory.length then
    some ((a.memory.drop offset).take size)
  else
    none

/-! ## Host import wiring (`from_valid_module_with_ctx`, lines 79-182)

The linker registrations actually performed by the constructor, in source
order. `env.abort` is registered under the fixed `env` namespace; every
other name is registered under the single user namespace. -/

/-- The import names registered under the user namespace by
`from_valid_module_with_ctx` (the explicit `linker.func` calls plus every
`link!` invocation), in registration order. -/
def linkedUserImports : List String :=
  ["store.set", "store.get", "ethereum.call", "store.remove",
   "typeConversion.bytesToString", "typeConversion.bytesToHex",
   "typeConversion.bigIntToString", "typeConversion.bigIntToHex",
   "typeConversion.stringToH160",
   "json.fromBytes", "json.try_FromBytes", "json.toI64", "json.toU64",
   "json.toF64", "json.toBigInt",
   "ipfs.cat", "ipfs.map",
   "crypto.keccak256",
   "bigInt.plus", "bigInt.minus", "bigInt.times", "bigInt.divedBy"]

/-- The import names registered under the `env` namespace. -/
def linkedEnvImports : List String := ["abort"]

/-- Modelled from the spec: the full public catalog of user-namespace
host-import names enumerated in spec section 4.D (the set a compliant
implementation must expose under the single user namespace; `env.abort` is
listed separately). -/
def specCatalogNames : List String :=
  ["store.get", "store.set", "store.remove",
   "ethereum.call",
   "typeConversion.bytesToString", "typeConversion.bytesToHex",
   "typeConversion.bigIntToString", "typeConversion.bigIntToHex",
   "typeConversion.stringToH160", "typeConversion.bytesToBase58",
   "json.fromBytes", "json.try_fromBytes", "json.toI64", "json.toU64",
   "json.toF64", "json.toBigInt",
   "ipfs.cat", "ipfs.map",
   "crypto.keccak256",
   "bigInt.plus", "bigInt.minus", "bigInt.times", "bigInt.dividedBy",
   "bigInt.dividedByDecimal", "bigInt.mod", "bigInt.pow",
   "bigDecimal.plus", "bigDecimal.minus", "bigDecimal.times",
   "bigDecimal.dividedBy", "bigDecimal.equals", "bigDecimal.toString",
   "bigDecimal.fromString",
   "dataSource.create", "dataSource.createWithContext", "dataSource.address",
   "dataSource.network", "dataSource.context",
   "ens.nameByHash",
   "log.log",
   "arweave.transactionData", "box.profile"]

/-! ## Module validation (`ValidModule::new`, mapping.rs lines 166-193) -/

/-- Rust `Vec::dedup`: remove consecutive repeated elements, keeping the
first of each run. -/
def rustDedup : List String → List String
  | [] => []
  | [a] => [a]
  | a :: b :: rest =>
    if a = b then rustDedup (b :: rest) else a :: rustDedup (b :: rest)

/-- `ValidModule::new` after a successful parse, as a function of the
sequence of import module names of the parsed wasm module: filter out
`env`, `dedup()`, and require the result to have length exactly 1; on
success the single remaining name becomes `user_module`. -/
def validModuleNew (imports : List String) : Except String String :=
  let importedModules := rustDedup (imports.filter fun m => m ≠ "env")
  match importedModules with
  | [m] => Except.ok m
  | ms =>
    Except.error ("WASM module has " ++ toString ms.length ++
      " import sections, we require exactly 1")

/-! ## Hex conversion (`bytes_to_hex`, lines 483-489) -/

/-- The lowercase hex digit for a nibble, as in the `hex` crate's encoding
table `"0123456789abcdef"`. -/
def hexDigitChar (n : Nat) : Char :=
  if n < 10 then Char.ofNat (48 + n) else Char.ofNat (87 + n)

/-- `hex::encode`: each byte becomes two lowercase hex digits, high nibble
first, in input order. -/
def hexEncodeChars : List Nat → List Char
  | [] => []
  | b :: rest => hexDigitChar (b / 16) :: hexDigitChar (b % 16) :: hexEncodeChars rest

/-- `WasmiModule::bytes_to_hex`: `format!("0x{}", hex::encode(bytes))`
(the `asc_new` re-encoding of the resulting string is abstracted away;
this is the string produced). -/
def bytesToHex (bytes : List Nat) : String :=
  "0x" ++ String.mk (hexEncodeChars bytes)

/-- Whether a character is a lowercase hexadecimal digit. -/
def isLowerHexDigit (c : Char) : Bool :=
  ("0123456789abcdef".toList).contains c

/-- The numeric value of a hex digit character (inverse of `hexDigitChar`
on digits). -/
def hexDigitVal (c : Char) : Nat :=
  if c.toNat ≤ 57 then c.toNat - 48 else c.toNat - 87

/-- Decode consecutive pairs of hex digit characters back to bytes. -/
def hexDecodePairs : List Char → List Nat
  | c1 :: c2 :: rest => (16 * hexDigitVal c1 + hexDigitVal c2) :: hexDecodePairs rest
  | _ => []

/-! ## Abort (`WasmiModule::abort`, lines 367-396) -/

/-- Modelled from the spec: `AscPtr::is_null` (defined in the `asc_abi`
crate, outside the provided sources) — an asc pointer is a 32-bit guest
offset and the null pointer is offset zero. -/
def ascPtrIsNull (ptr : Nat) : Bool := ptr = 0

/-- Modelled from the spec: `AscPtr::null()` is the zero offset. -/
def ascNullPtr : Nat := 0

/-- The decoded fields carried by the trap that `abort` produces. -/
structure AbortInfo where
  message : Option String
  fileName : Option String
  lineNumber : Option Int
  columnNumber : Option Int
deriving DecidableEq, Repr

/-- `WasmiModule::abort`: decode each pointer unless null, treat a line or
column number of 0 as absent, and always return `Err` — the trap carrying
the decoded fields (`host_exports.abort(..).unwrap_err()`; the host-exports
side is modelled from the spec: the trap carries exactly the decoded
fields). `decodeString` stands for `asc_get` on the guest string at a
pointer. -/
def abort (decodeString : Nat → String) (messagePtr fileNamePtr : Nat)
    (lineNumber columnNumber : Int) : Except AbortInfo Unit :=
  Except.error
    { message := if ascPtrIsNull messagePtr then none else some (decodeString messagePtr)
      fileName := if ascPtrIsNull fileNamePtr then none else some (decodeString fileNamePtr)
      lineNumber := if lineNumber = 0 then none else some lineNumber
      columnNumber := if columnNumber = 0 then none else some columnNumber }

/-! ## IPFS cat (`WasmiModule::ipfs_cat`, lines 547-564) -/

/-- `WasmiModule::ipfs_cat` as a function of the IPFS collaborator's result
for the decoded link: on `Ok(bytes)` return the pointer produced by
`asc_new` for those bytes (`ascNewBytes` stands for that encoding); on
`Err` log and return `Ok(AscPtr::null())`. Never an `Err`. -/
def ipfsCat (ascNewBytes : List Nat → Nat) (ipfsRes : Except String (List Nat)) :
    Except String Nat :=
  match ipfsRes with
  | Except.ok bytes => Except.ok (ascNewBytes bytes)
  | Except.error _ => Except.ok ascNullPtr

/-! ## Helper lemmas -/

theorem i32TryFrom_eq_some {n : Nat} {s : Int} :
    i32TryFrom n = some s ↔ (n : Int) ≤ i32Max ∧ s = (n : Int) := by
  unfold i32TryFrom
  split <;> simp_all [eq_comm]

theorem arenaRefill_snd (allocate : Int → Int) (a : Arena) (size : Int) :
    (arenaRefill allocate a size).2 = decide (size > a.arenaFreeSize) := by
  unfold arenaRefill
  split <;> simp_all

theorem arenaRefill_fst_pos {allocate : Int → Int} {a : Arena} {size : Int}
    (h : size > a.arenaFreeSize) :
    (arenaRefill allocate a size).1 =
      { a with arenaStartPtr := allocate (max size MIN_ARENA_SIZE),
               arenaFreeSize := max size MIN_ARENA_SIZE } := by
  unfold arenaRefill
  rw [if_pos h]

theorem arenaRefill_fst_neg {allocate : Int → Int} {a : Arena} {size : Int}
    (h : ¬ size > a.arenaFreeSize) :
    (arenaRefill allocate a size).1 = a := by
  unfold arenaRefill
  rw [if_neg h]

/-- Inversion for a successful `rawNew`: the length fits in `i32` and the
returned state is the refilled state with the pointer advanced and the free
size decremented by the length. -/
theorem rawNew_some_elim {allocate : Int → Int} {a : Arena} {bytes : List Nat}
    {a' : Arena} {p : Nat} (h : rawNew allocate a bytes = some (a', p)) :
    (bytes.length : Int) ≤ i32Max ∧
    p = i32AsUsize ((arenaRefill allocate a (bytes.length : Int)).1).arenaStartPtr ∧
    a'.arenaStartPtr =
      ((arenaRefill allocate a (bytes.length : Int)).1).arenaStartPtr + (bytes.length : Int) ∧
    a'.arenaFreeSize =
      ((arenaRefill allocate a (bytes.length : Int)).1).arenaFreeSize - (bytes.length : Int) := by
  unfold rawNew at h
  cases htry : i32TryFrom bytes.length with
  | none => rw [htry] at h; exact absurd h (by simp)
  | some size =>
    rw [htry] at h
    obtain ⟨hle, hsize⟩ := i32TryFrom_eq_some.mp htry
    subst hsize
    simp only at h
    cases hcopy : copyFromSlice ((arenaRefill allocate a (bytes.length : Int)).1).memory
        (i32AsUsize ((arenaRefill allocate a (bytes.length : Int)).1).arenaStartPtr)
        bytes.length bytes with
    | none => rw [hcopy] at h; exact absurd h (by simp)
    | some mem1 =>
      rw [hcopy] at h
      simp only [Option.some.injEq, Prod.mk.injEq] at h
      obtain ⟨ha', hp⟩ := h
      subst ha'
      exact ⟨hle, hp.symm, rfl, rfl⟩

/-! ## Claim theorems -/

/-- C1: the claim says `raw_new(b)` copies `b` into guest memory at
`[arena_start_ptr .. arena_start_ptr + len(b)]` and returns `p` with
`get(p, len(b)) = b`. The source instead slices `data[ptr..bytes.len()]`,
which panics whenever the arena pointer is nonzero: here from a fresh
instance whose guest allocator returns slab offset 1024, and from an
instance whose arena pointer has advanced to 5. -/
theorem raw_new_copy_range_bug :
    rawNew (fun _ => 1024) (initialArena (List.replicate 8 0)) [1, 2, 3] = none ∧
    rawNew (fun _ => 0)
      { arenaStartPtr := 5, arenaFreeSize := 100, memory := List.replicate 20 0 }
      [1, 2, 3] = none := by
  constructor <;> rfl

/-- C5: for a `raw_new(b)` call that returns, a fresh slab of size
`max(len(b), MIN_ARENA_SIZE)` is requested from the guest allocator and
becomes the new arena exactly when `len(b) > arena_free_size` (otherwise the
arena is kept), and in both cases `arena_start_ptr` is advanced and
`arena_free_size` decremented by `len(b)`. -/
theorem raw_new_arena_accounting (allocate : Int → Int) (a : Arena) (bytes : List Nat)
    (a' : Arena) (p : Nat) (h : rawNew allocate a bytes = some (a', p)) :
    a'.arenaStartPtr =
      (if (bytes.length : Int) > a.arenaFreeSize
        then allocate (max (bytes.length : Int) MIN_ARENA_SIZE)
        else a.arenaStartPtr) + (bytes.length : Int) ∧
    a'.arenaFreeSize =
      (if (bytes.length : Int) > a.arenaFreeSize
        then max (bytes.length : Int) MIN_ARENA_SIZE
        else a.arenaFreeSize) - (bytes.length : Int) ∧
    (arenaRefill allocate a (bytes.length : Int)).2 =
      decide ((bytes.length : Int) > a.arenaFreeSize) := by
  obtain ⟨-, -, hstart, hfree⟩ := rawNew_some_elim h
  by_cases hgt : (bytes.length : Int) > a.arenaFreeSize
  · rw [arenaRefill_fst_pos hgt] at hstart hfree
    rw [if_pos hgt, if_pos hgt]
    exact ⟨hstart, hfree, arenaRefill_snd allocate a _⟩
  · rw [arenaRefill_fst_neg hgt] at hstart hfree
    rw [if_neg hgt, if_neg hgt]
    exact ⟨hstart, hfree, arenaRefill_snd allocate a _⟩

/-- Witness for `raw_new_arena_accounting` at a concrete successful call. -/
theorem raw_new_arena_accounting_witness :
    rawNew (fun _ => 0) (initialArena (List.replicate 12 7)) [1, 2, 3] =
      some ({ arenaStartPtr := 3, arenaFreeSize := 9997,
              memory := [1, 2, 3, 7, 7, 7, 7, 7, 7, 7, 7, 7] }, 0) ∧
    ((Arena.mk 3 9997 [1, 2, 3, 7, 7, 7, 7, 7, 7, 7, 7, 7]).arenaStartPtr =
      (if ((([1, 2, 3] : List Nat).length : Int) >
            (initialArena (List.replicate 12 7)).arenaFreeSize)
        then (fun _ => (0 : Int)) (max ((([1, 2, 3] : List Nat).length : Int)) MIN_ARENA_SIZE)
        else (initialArena (List.replicate 12 7)).arenaStartPtr) +
        ((([1, 2, 3] : List Nat).length : Int)) ∧
    (Arena.mk 3 9997 [1, 2, 3, 7, 7, 7, 7, 7, 7, 7, 7, 7]).arenaFreeSize =
      (if ((([1, 2, 3] : List Nat).length : Int) >
            (initialArena (List.replicate 12 7)).arenaFreeSize)
        then max ((([1, 2, 3] : List Nat).length : Int)) MIN_ARENA_SIZE
        else (initialArena (List.replicate 12 7)).arenaFreeSize) -
        ((([1, 2, 3] : List Nat).length : Int)) ∧
    (arenaRefill (fun _ => 0) (initialArena (List.replicate 12 7))
        ((([1, 2, 3] : List Nat).length : Int))).2 =
      decide ((([1, 2, 3] : List Nat).length : Int) >
        (initialArena (List.replicate 12 7)).arenaFreeSize)) :=
  ⟨by decide,
   raw_new_arena_accounting (fun _ => 0) (initialArena (List.replicate 12 7)) [1, 2, 3]
     (Arena.mk 3 9997 [1, 2, 3, 7, 7, 7, 7, 7, 7, 7, 7, 7]) 0 (by decide)⟩

/-- C6 counterexample: from the freshly constructed state (both arena
fields zero) a first `raw_new` of the empty byte slice succeeds without
requesting a fresh slab (`0 > 0` is false), refuting "the first allocation
always requests a fresh slab". -/
theorem arena_first_alloc_counterexample :
    rawNew (fun _ => 0) (initialArena []) [] = some (initialArena [], 0) ∧
    (arenaRefill (fun _ => 0) (initialArena []) ((([] : List Nat).length : Int))).2 = false := by
  constructor <;> rfl

/-- C6 (amended): `arena_free_size ≥ 0` holds at construction, where both
arena fields are zero, and is preserved by every successful `raw_new`; from
the initial state a `raw_new` requests a fresh slab exactly when the byte
slice is nonempty. -/
theorem arena_free_size_invariant (mem : List Nat) (allocate : Int → Int)
    (a a' : Arena) (bytes : List Nat) (p : Nat)
    (_hfree : 0 ≤ a.arenaFreeSize) (h : rawNew allocate a bytes = some (a', p)) :
    (initialArena mem).arenaStartPtr = 0 ∧
    (initialArena mem).arenaFreeSize = 0 ∧
    0 ≤ a'.arenaFreeSize ∧
    (arenaRefill allocate (initialArena mem) ((bytes.length : Int))).2 =
      decide (0 < bytes.length) := by
  obtain ⟨-, -, -, hfs⟩ := rawNew_some_elim h
  refine ⟨rfl, rfl, ?_, ?_⟩
  · by_cases hgt : (bytes.length : Int) > a.arenaFreeSize
    · rw [arenaRefill_fst_pos hgt] at hfs
      simp only at hfs
      omega
    · rw [arenaRefill_fst_neg hgt] at hfs
      omega
  · rw [arenaRefill_snd]
    simp only [initialArena]
    by_cases h0 : 0 < bytes.length
    · simp [h0]
    · simp [h0]

/-- Witness for `arena_free_size_invariant` at a concrete successful call. -/
theorem arena_free_size_invariant_witness :
    0 ≤ (initialArena (List.replicate 4 9)).arenaFreeSize ∧
    rawNew (fun _ => 0) (initialArena (List.replicate 4 9)) [5] =
      some ({ arenaStartPtr := 1, arenaFreeSize := 9999, memory := [5, 9, 9, 9] }, 0) ∧
    ((initialArena ([] : List Nat)).arenaStartPtr = 0 ∧
      (initialArena ([] : List Nat)).arenaFreeSize = 0 ∧
      0 ≤ (Arena.mk 1 9999 [5, 9, 9, 9]).arenaFreeSize ∧
      (arenaRefill (fun _ => 0) (initialArena ([] : List Nat))
          ((([5] : List Nat).length : Int))).2 =
        decide (0 < ([5] : List Nat).length)) :=
  ⟨by decide, by decide,
   arena_free_size_invariant [] (fun _ => 0) (initialArena (List.replicate 4 9))
     (Arena.mk 1 9999 [5, 9, 9, 9]) [5] 0 (by decide) (by decide)⟩

/-- C10: `raw_new` panics (rather than trapping or returning) whenever the
byte length exceeds `i32::MAX`, through the `i32::try_from(..).unwrap()`
length conversion; under the precondition `len(bytes) ≤ i32::MAX` that
conversion always succeeds. -/
theorem raw_new_length_precondition (allocate : Int → Int) (a : Arena) (bytes : List Nat) :
    (i32Max < (bytes.length : Int) → rawNew allocate a bytes = none) ∧
    ((bytes.length : Int) ≤ i32Max → i32TryFrom bytes.length = some (bytes.length : Int)) := by
  constructor
  · intro hgt
    have hnone : i32TryFrom bytes.length = none := by
      unfold i32TryFrom
      rw [if_neg (by omega)]
    unfold rawNew
    rw [hnone]
  · intro hle
    unfold i32TryFrom
    rw [if_pos hle]

/-- Witness for `raw_new_length_precondition`: a byte slice of length
`2 ^ 31` panics the length conversion, one of length 3 passes it. -/
theorem raw_new_length_precondition_witness :
    (i32Max < ((List.replicate (2 ^ 31) (0 : Nat)).length : Int) ∧
      rawNew (fun _ => 0) (initialArena []) (List.replicate (2 ^ 31) 0) = none) ∧
    ((([0, 1, 2] : List Nat).length : Int) ≤ i32Max ∧
      i32TryFrom ([0, 1, 2] : List Nat).length = some ((([0, 1, 2] : List Nat).length : Int))) := by
  have h1 : i32Max < ((List.replicate (2 ^ 31) (0 : Nat)).length : Int) := by
    rw [List.length_replicate]
    norm_num [i32Max]
  have h2 : (([0, 1, 2] : List Nat).length : Int) ≤ i32Max := by
    norm_num [i32Max]
  exact ⟨⟨h1, (raw_new_length_precondition (fun _ => 0) (initialArena []) _).1 h1⟩,
         ⟨h2, (raw_new_length_precondition (fun _ => 0) (initialArena []) _).2 h2⟩⟩

/-- C3: all three versioned payload selections use a greater-or-equal
comparison against their boundary: `handle_ethereum_log` produces the
`AscEthereumTransaction_0_0_2` event encoding iff `api_version >= 0.0.2`
(else legacy), `handle_ethereum_call` produces `AscEthereumCall_0_0_3` iff
`api_version >= 0.0.3` (else legacy), and `ethereum.call` decodes its
argument as `AscUnresolvedContractCall_0_0_4` iff `api_version >= 0.0.4`
(else legacy); the last conjunct spells out the lexicographic meaning of
`>= 0.0.2`. -/
theorem versioned_payload_selection (v : SemVer) :
    (handleEthereumLogEncoding v = EventEncoding.transaction_0_0_2 ↔
      SemVer.ge v ⟨0, 0, 2⟩ = true) ∧
    (handleEthereumLogEncoding v = EventEncoding.transactionLegacy ↔
      SemVer.ge v ⟨0, 0, 2⟩ = false) ∧
    (handleEthereumCallEncoding v = CallEncoding.call_0_0_3 ↔
      SemVer.ge v ⟨0, 0, 3⟩ = true) ∧
    (handleEthereumCallEncoding v = CallEncoding.callLegacy ↔
      SemVer.ge v ⟨0, 0, 3⟩ = false) ∧
    (ethereumCallArgDecoding v = ContractCallDecoding.unresolvedCall_0_0_4 ↔
      SemVer.ge v ⟨0, 0, 4⟩ = true) ∧
    (ethereumCallArgDecoding v = ContractCallDecoding.unresolvedCallLegacy ↔
      SemVer.ge v ⟨0, 0, 4⟩ = false) ∧
    (SemVer.ge v ⟨0, 0, 2⟩ = true ↔
      1 ≤ v.major ∨ (v.major = 0 ∧ (1 ≤ v.minor ∨ (v.minor = 0 ∧ 2 ≤ v.patch)))) := by
  refine ⟨?_, ?_, ?_, ?_, ?_, ?_, ?_⟩
  · unfold handleEthereumLogEncoding
    split <;> simp_all
  · unfold handleEthereumLogEncoding
    split <;> simp_all
  · unfold handleEthereumCallEncoding
    split <;> simp_all
  · unfold handleEthereumCallEncoding
    split <;> simp_all
  · unfold ethereumCallArgDecoding
    split <;> simp_all
  · unfold ethereumCallArgDecoding
    split <;> simp_all
  · simp only [SemVer.ge, SemVer.le]
    split_ifs with h1 h2 <;> simp_all <;> omega

/-- C7: `ipfs_cat` never returns a trap once the link decodes: if the IPFS
collaborator returns bytes the result is `Ok` of the pointer `asc_new`
produces for those bytes, and if the collaborator fails the result is `Ok`
of the null pointer. -/
theorem ipfs_cat_never_traps (ascNewBytes : List Nat → Nat)
    (ipfsRes : Except String (List Nat)) :
    ipfsCat ascNewBytes ipfsRes =
      Except.ok (match ipfsRes with
        | Except.ok bytes => ascNewBytes bytes
        | Except.error _ => ascNullPtr) := by
  cases ipfsRes <;> rfl

/-- C9: `abort` always returns an error; a null message or file-name
pointer is decoded as an absent field, a line or column number of 0 is
reported as absent, and any nonzero value is carried through. -/
theorem abort_always_traps (decodeString : Nat → String) (messagePtr fileNamePtr : Nat)
    (lineNumber columnNumber : Int) :
    abort decodeString messagePtr fileNamePtr lineNumber columnNumber =
      Except.error
        { message := if messagePtr = 0 then none else some (decodeString messagePtr)
          fileName := if fileNamePtr = 0 then none else some (decodeString fileNamePtr)
          lineNumber := if lineNumber = 0 then none else some lineNumber
          columnNumber := if columnNumber = 0 then none else some columnNumber } ∧
    abort decodeString messagePtr fileNamePtr lineNumber columnNumber ≠ Except.ok () := by
  constructor
  · simp [abort, ascPtrIsNull]
  · simp [abort]

/-- C2: the claim says construction links, under the user namespace, every
host import name of the spec's catalog with the spec's spelling. The
constructor instead registers the misspelled `bigInt.divedBy` and
`json.try_FromBytes`, and registers no `bigDecimal.*`, `dataSource.*`,
`ens.nameByHash`, `log.log`, `arweave.transactionData` or `box.profile`
name at all, so a guest importing those catalog names fails to link. -/
theorem linked_imports_diverge_from_catalog :
    ("bigInt.dividedBy" ∉ linkedUserImports ∧ "bigInt.divedBy" ∈ linkedUserImports) ∧
    ("json.try_fromBytes" ∉ linkedUserImports ∧ "json.try_FromBytes" ∈ linkedUserImports) ∧
    "log.log" ∉ linkedUserImports ∧
    "ens.nameByHash" ∉ linkedUserImports ∧
    "bigDecimal.plus" ∉ linkedUserImports ∧
    "dataSource.create" ∉ linkedUserImports ∧
    "arweave.transactionData" ∉ linkedUserImports ∧
    "box.profile" ∉ linkedUserImports ∧
    "bigInt.dividedBy" ∈ specCatalogNames ∧
    "json.try_fromBytes" ∈ specCatalogNames ∧
    ¬ ∀ n ∈ specCatalogNames, n ∈ linkedUserImports := by
  decide

theorem rustDedup_eq_nil {l : List String} : rustDedup l = [] ↔ l = [] := by
  induction l with
  | nil => simp [rustDedup]
  | cons a rest ih =>
    cases rest with
    | nil => simp [rustDedup]
    | cons b rest2 =>
      simp only [rustDedup]
      split
      · simp_all
      · simp

theorem rustDedup_eq_single {l : List String} {m : String} :
    rustDedup l = [m] ↔ l ≠ [] ∧ ∀ x ∈ l, x = m := by
  induction l with
  | nil => simp [rustDedup]
  | cons a rest ih =>
    cases rest with
    | nil => simp [rustDedup]
    | cons b rest2 =>
      simp only [rustDedup]
      split
      · next hab =>
        subst hab
        rw [ih]
        simp_all
      · next hab =>
        constructor
        · intro h
          have h1 : a = m ∧ rustDedup (b :: rest2) = [] := by
            cases h2 : rustDedup (b :: rest2) with
            | nil => rw [h2] at h; simp_all
            | cons c cs => rw [h2] at h; simp_all
          exact absurd (rustDedup_eq_nil.mp h1.2) (by simp)
        · rintro ⟨-, hall⟩
          have ha : a = m := hall a (by simp)
          have hb : b = m := hall b (by simp)
          exact absurd (ha.trans hb.symm) hab

theorem toFinset_eq_singleton_of_all_eq {l : List String} {m : String}
    (hne : l ≠ []) (hall : ∀ x ∈ l, x = m) : l.toFinset = {m} := by
  ext y
  simp only [List.mem_toFinset, Finset.mem_singleton]
  constructor
  · exact fun hy => hall y hy
  · rintro rfl
    obtain ⟨x, hx⟩ := List.exists_mem_of_ne_nil l hne
    exact (hall x hx) ▸ hx

theorem all_eq_of_toFinset_eq_singleton {l : List String} {m : String}
    (h : l.toFinset = {m}) : l ≠ [] ∧ ∀ x ∈ l, x = m := by
  constructor
  · intro hnil
    subst hnil
    simp only [List.toFinset_nil] at h
    exact Finset.singleton_ne_empty m h.symm
  · intro x hx
    have : x ∈ l.toFinset := List.mem_toFinset.mpr hx
    rw [h] at this
    exact Finset.mem_singleton.mp this

/-- C4: on a parseable module, `ValidModule::new` succeeds if and only if
the set of distinct import module names other than `env` has exactly one
element (zero or two-plus distinct names is an error), and on success
`user_module` is that single name. -/
theorem valid_module_new_spec (imports : List String) :
    ((∃ m, validModuleNew imports = Except.ok m) ↔
      (imports.filter fun x => x ≠ "env").toFinset.card = 1) ∧
    ∀ m, validModuleNew imports = Except.ok m →
      (imports.filter fun x => x ≠ "env").toFinset = {m} := by
  have key : ∀ m, validModuleNew imports = Except.ok m ↔
      rustDedup (imports.filter fun x => x ≠ "env") = [m] := by
    intro m
    unfold validModuleNew
    cases hd : rustDedup (imports.filter fun x => x ≠ "env") with
    | nil => simp
    | cons x rest =>
      cases rest with
      | nil => simp
      | cons y rest2 => simp
  have single : ∀ m, validModuleNew imports = Except.ok m →
      (imports.filter fun x => x ≠ "env").toFinset = {m} := by
    intro m hm
    obtain ⟨hne, hall⟩ := rustDedup_eq_single.mp ((key m).mp hm)
    exact toFinset_eq_singleton_of_all_eq hne hall
  refine ⟨?_, single⟩
  rw [Finset.card_eq_one]
  constructor
  · rintro ⟨m, hm⟩
    exact ⟨m, single m hm⟩
  · rintro ⟨m, hm⟩
    obtain ⟨hne, hall⟩ := all_eq_of_toFinset_eq_singleton hm
    exact ⟨m, (key m).mpr (rustDedup_eq_single.mpr ⟨hne, hall⟩)⟩

/-- Witness for `valid_module_new_spec` at a concrete import list. -/
theorem valid_module_new_spec_witness :
    (∃ m, validModuleNew ["env", "index", "index"] = Except.ok m) ∧
    (["env", "index", "index"].filter fun x => x ≠ "env").toFinset = {"index"} :=
  ⟨(valid_module_new_spec ["env", "index", "index"]).1.mpr (by decide),
   (valid_module_new_spec ["env", "index", "index"]).2 "index" (by rfl)⟩

theorem hexDigitChar_isLower {n : Nat} (h : n < 16) :
    isLowerHexDigit (hexDigitChar n) = true := by
  interval_cases n <;> decide

theorem hexDigitVal_hexDigitChar {n : Nat} (h : n < 16) :
    hexDigitVal (hexDigitChar n) = n := by
  interval_cases n <;> decide

theorem hexEncodeChars_length (bytes : List Nat) :
    (hexEncodeChars bytes).length = 2 * bytes.length := by
  induction bytes with
  | nil => rfl
  | cons b rest ih =>
    simp only [hexEncodeChars, List.length_cons, ih]
    omega

theorem hexEncodeChars_lower {bytes : List Nat} (h : ∀ b ∈ bytes, b < 256) :
    ∀ c ∈ hexEncodeChars bytes, isLowerHexDigit c = true := by
  induction bytes with
  | nil => simp [hexEncodeChars]
  | cons b rest ih =>
    have hb : b < 256 := h b (by simp)
    have hhi : b / 16 < 16 := Nat.div_lt_of_lt_mul (by omega)
    have hlo : b % 16 < 16 := Nat.mod_lt _ (by omega)
    intro c hc
    simp only [hexEncodeChars, List.mem_cons] at hc
    rcases hc with rfl | rfl | hc
    · exact hexDigitChar_isLower hhi
    · exact hexDigitChar_isLower hlo
    · exact ih (fun x hx => h x (by simp [hx])) c hc

theorem hexDecodePairs_hexEncodeChars {bytes : List Nat} (h : ∀ b ∈ bytes, b < 256) :
    hexDecodePairs (hexEncodeChars bytes) = bytes := by
  induction bytes with
  | nil => rfl
  | cons b rest ih =>
    have hb : b < 256 := h b (by simp)
    have hhi : b / 16 < 16 := Nat.div_lt_of_lt_mul (by omega)
    have hlo : b % 16 < 16 := Nat.mod_lt _ (by omega)
    simp only [hexEncodeChars, hexDecodePairs,
      hexDigitVal_hexDigitChar hhi, hexDigitVal_hexDigitChar hlo,
      ih (fun x hx => h x (by simp [hx]))]
    congr 1
    omega

/-- C8: `bytes_to_hex(b)` is the string `0x` followed by exactly two
lowercase hexadecimal digits per byte, in input order (witnessed by the
pairwise decode returning the input), and equals exactly `0x` for empty
input. -/
theorem bytes_to_hex_spec (bytes : List Nat) (h : ∀ b ∈ bytes, b < 256) :
    (bytesToHex bytes).data = '0' :: 'x' :: hexEncodeChars bytes ∧
    (bytesToHex bytes).data.length = 2 + 2 * bytes.length ∧
    (∀ c ∈ (bytesToHex bytes).data.drop 2, isLowerHexDigit c = true) ∧
    hexDecodePairs ((bytesToHex bytes).data.drop 2) = bytes ∧
    bytesToHex [] = "0x" := by
  have hdata : (bytesToHex bytes).data = '0' :: 'x' :: hexEncodeChars bytes := rfl
  refine ⟨hdata, ?_, ?_, ?_, rfl⟩
  · rw [hdata]
    simp only [List.length_cons, hexEncodeChars_length]
    omega
  · rw [hdata]
    exact hexEncodeChars_lower h
  · rw [hdata]
    exact hexDecodePairs_hexEncodeChars h

/-- Witness for `bytes_to_hex_spec` at the bytes `[0, 171, 255]`
(hex `00abff`). -/
theorem bytes_to_hex_spec_witness :
    (∀ b ∈ ([0, 171, 255] : List Nat), b < 256) ∧
    ((bytesToHex [0, 171, 255]).data = '0' :: 'x' :: hexEncodeChars [0, 171, 255] ∧
      (bytesToHex [0, 171, 255]).data.length = 2 + 2 * ([0, 171, 255] : List Nat).length ∧
      (∀ c ∈ (bytesToHex [0, 171, 255]).data.drop 2, isLowerHexDigit c = true) ∧
      hexDecodePairs ((bytesToHex [0, 171, 255]).data.drop 2) = [0, 171, 255] ∧
      bytesToHex [] = "0x") :=
  ⟨by decide, bytes_to_hex_spec [0, 171, 255] (by decide)⟩

end GraphNode
